import Mathlib

/-!
Verification of the resumable S3 downloader (`s3_download.py`).

The Python source is shallowly embedded:
* bytes are `Nat`, byte strings are `List Nat`;
* paths, bucket names and object keys are `List Char`;
* the local filesystem is a map from exact path strings to entries
  (`Entry.file content` or `Entry.dir`), updated functionally;
* `s3_client.get_object` with a `Range` header is an oracle
  `Nat → Nat → FetchResult` that either returns body bytes or raises
  a `ClientError` (`FetchResult.clientError`);
* the `while` loop of `download_file_resumable` is written with a fuel
  parameter; each loop iteration that appends data adds at least one byte,
  so `expected_size - current_local_size + 1` units of fuel always suffice;
* observable side effects (range requests issued, `delete_object` calls)
  are recorded in an event list.
-/

namespace S3Download

/-- A byte of object content. -/
abbrev Byte := Nat

/-- A filesystem path / bucket name / object key, as a character string. -/
abbrev Path := List Char

/-- Constant `chunk_size = 8 * 1024 * 1024  # 8 MB` from `download_file_resumable`. -/
def chunk_size : Nat := 8 * 1024 * 1024

/-- Result of `s3_client.get_object(..., Range=...)`: either a `ClientError`
or the bytes of `response['Body'].read()`. -/
inductive FetchResult where
  | clientError : FetchResult
  | ok : List Byte → FetchResult
deriving DecidableEq

/-- The local file at the download path: `none` when absent. -/
abbrev LocalFile := Option (List Byte)

/-- The content of a local file (`[]` when the file is absent). -/
def localContent : LocalFile → List Byte
  | none => []
  | some c => c

/-- Python's `os.path.getsize` combined with the `os.path.exists` guard of
`download_file_resumable`: 0 when the file is absent. -/
def localSize (f : LocalFile) : Nat := (localContent f).length

/-- Appending write `open(local_path, "ab"); f.write(data)`: creates the file
when absent, never truncating. -/
def appendFile : LocalFile → List Byte → LocalFile
  | none, data => some data
  | some c, data => some (c ++ data)

/-- Outcome of one `download_file_resumable` call: the returned pair
`(success, new_bytes_downloaded)` plus the resulting local file and the
list of byte ranges requested from S3, in order. -/
structure LoopResult where
  success : Bool
  newBytes : Nat
  file : LocalFile
  requests : List (Nat × Nat)
deriving DecidableEq

/-- The `while downloaded < expected_size` loop of `download_file_resumable`
(lines 145-164).  Each iteration requests the range
`[downloaded, min(downloaded + chunk_size - 1, expected_size - 1)]`;
a `ClientError` returns `(False, new_bytes_downloaded)`; empty data breaks
out of the loop; otherwise the data is appended and counters advance.
After the loop, success is `downloaded >= expected_size`.
The extra fuel argument bounds the iteration count; every iteration that
continues appends at least one byte, so fuel `expected_size - downloaded + 1`
is never exhausted. -/
def downloadLoop (fetch : Nat → Nat → FetchResult) (expected_size : Nat) :
    Nat → LocalFile → Nat → Nat → List (Nat × Nat) → LoopResult
  | 0, file, downloaded, new_bytes, reqs =>
      ⟨decide (downloaded ≥ expected_size), new_bytes, file, reqs⟩
  | fuel + 1, file, downloaded, new_bytes, reqs =>
      if downloaded < expected_size then
        match fetch downloaded (min (downloaded + chunk_size - 1) (expected_size - 1)) with
        | .clientError =>
            ⟨false, new_bytes, file,
              reqs ++ [(downloaded, min (downloaded + chunk_size - 1) (expected_size - 1))]⟩
        | .ok data =>
            if data.isEmpty then
              ⟨false, new_bytes, file,
                reqs ++ [(downloaded, min (downloaded + chunk_size - 1) (expected_size - 1))]⟩
            else
              downloadLoop fetch expected_size fuel (appendFile file data)
                (downloaded + data.length) (new_bytes + data.length)
                (reqs ++ [(downloaded, min (downloaded + chunk_size - 1) (expected_size - 1))])
      else ⟨true, new_bytes, file, reqs⟩

/-- Function `download_file_resumable` (lines 118-171): measure the local file,
short-circuit when it is already complete, otherwise run the chunked
range-request loop. -/
def download_file_resumable (fetch : Nat → Nat → FetchResult)
    (file : LocalFile) (expected_size : Nat) : LoopResult :=
  if localSize file ≥ expected_size then ⟨true, 0, file, []⟩
  else
    downloadLoop fetch expected_size (expected_size - localSize file + 1)
      file (localSize file) 0 []

/-- The honest S3 range oracle for an object with the given content:
`get_object(Range=f"bytes={a}-{b}")` returns exactly bytes `a..b`. -/
def honestFetch (content : List Byte) : Nat → Nat → FetchResult :=
  fun a b => .ok ((content.drop a).take (b - a + 1))

/-- The sequence of byte ranges a fully successful run requests, starting
at offset `k` for an object of `s` bytes: consecutive chunks of at most
`chunk_size` bytes (helper, fueled). -/
def chunkRangesAux (s : Nat) : Nat → Nat → List (Nat × Nat)
  | 0, _ => []
  | fuel + 1, k =>
      if k < s then
        (k, min (k + chunk_size - 1) (s - 1)) ::
          chunkRangesAux s fuel (k + min chunk_size (s - k))
      else []

/-- The sequence of byte ranges a fully successful run requests,
starting at offset `k` for an object of `s` bytes. -/
def chunkRanges (k s : Nat) : List (Nat × Nat) := chunkRangesAux s (s - k) k

/-- Predicate: `reqs` covers exactly the byte interval `[start, stop]` with
consecutive, non-overlapping, in-order ranges. -/
def coversRange : List (Nat × Nat) → Nat → Nat → Prop
  | [], start, stop => start = stop + 1
  | (a, b) :: rest, start, stop =>
      a = start ∧ a ≤ b ∧ b ≤ stop ∧ coversRange rest (b + 1) stop

/-! ### IgnoreMatcher: `should_ignore_bucket` -/

/-- Python's `substr in bucket_name`: `p` occurs as a contiguous substring
of `name`. -/
def isSubstring (p : Path) (name : Path) : Bool :=
  p.isPrefixOf name ||
    match name with
    | [] => false
    | _ :: t => isSubstring p t

/-- The `ignore_patterns` configuration: `starts_with`, `ends_with` and
`contains` pattern lists. -/
structure IgnorePatterns where
  starts_with : List Path
  ends_with : List Path
  contains : List Path

/-- Which rule fired for a bucket name (the pattern logged by
`should_ignore_bucket`). -/
inductive IgnoreCause where
  | byStartsWith : Path → IgnoreCause
  | byEndsWith : Path → IgnoreCause
  | byContains : Path → IgnoreCause
deriving DecidableEq

/-- Function `should_ignore_bucket` (lines 44-63) scans the `starts_with` rules, then
the `ends_with` rules, then the `contains` rules, returning at the first
match; this function returns that first matching rule (or `none`). -/
def findIgnoreCause (bucket_name : Path) (pats : IgnorePatterns) :
    Option IgnoreCause :=
  ((pats.starts_with.find? (fun p => p.isPrefixOf bucket_name)).map
      IgnoreCause.byStartsWith).or
    (((pats.ends_with.find? (fun p => p.isSuffixOf bucket_name)).map
        IgnoreCause.byEndsWith).or
      ((pats.contains.find? (fun p => isSubstring p bucket_name)).map
        IgnoreCause.byContains))

/-- Function `should_ignore_bucket` returns `True` exactly when some rule matched. -/
def should_ignore_bucket (bucket_name : Path) (pats : IgnorePatterns) : Bool :=
  (findIgnoreCause bucket_name pats).isSome

/-! ### Filesystem model -/

/-- A filesystem entry: a plain file with its content, or a directory. -/
inductive Entry where
  | file : List Byte → Entry
  | dir : Entry
deriving DecidableEq

/-- The local filesystem: a map from exact path strings to entries. -/
abbrev FileSystem := Path → Option Entry

/-- Write an entry at a path. -/
def updateFs (fs : FileSystem) (p : Path) (e : Entry) : FileSystem :=
  fun q => if q = p then some e else fs q

/-- Remove the entry at a path. -/
def removeFs (fs : FileSystem) (p : Path) : FileSystem :=
  fun q => if q = p then none else fs q

/-- Python's `os.path.exists`. -/
def pathExists (fs : FileSystem) (p : Path) : Bool := (fs p).isSome

/-- Python's `os.path.getsize` (0 for anything that is not a plain file). -/
def getSize (fs : FileSystem) (p : Path) : Nat :=
  match fs p with
  | some (.file c) => c.length
  | _ => 0

/-- The local file at a path, as seen by `download_file_resumable`
(`none` when the path has no plain file). -/
def localFileAt (fs : FileSystem) (p : Path) : LocalFile :=
  match fs p with
  | some (.file c) => some c
  | _ => none

/-- Python's `os.path.join(a, b)` for a relative second component. -/
def joinPath (a b : Path) : Path := a ++ '/' :: b

/-- Python's `os.path.dirname`: everything before the last path separator. -/
def dirname (p : Path) : Path :=
  ((p.reverse.dropWhile (fun c => c ≠ '/')).drop 1).reverse

/-- The fixed `"_file_conflict"` rename marker of `ensure_directory`. -/
def conflict_suffix : Path := "_file_conflict".toList

/-- Function `ensure_directory` (lines 65-83): no-op when the path is already a
directory; when it is a plain file, rename it to `path + "_file_conflict"`
(re-raising, i.e. `.error`, when the rename fails) and then create the
directory; when absent, just create the directory (`os.makedirs`). -/
def ensure_directory (renameFails : Path → Bool) (fs : FileSystem) (path : Path) :
    Except Unit FileSystem :=
  match fs path with
  | some .dir => .ok fs
  | some (.file c) =>
      if renameFails path then .error ()
      else
        .ok (updateFs (removeFs (updateFs fs (path ++ conflict_suffix) (.file c)) path)
          path .dir)
  | none => .ok (updateFs fs path .dir)

/-! ### SyncOrchestrator and FleetDriver -/

/-- A listed S3 object: its `Key` and `Size` metadata. -/
structure S3Object where
  key : Path
  size : Nat
deriving DecidableEq

/-- Observable remote side effects, in order of occurrence: a ranged
`get_object` request, or an `s3_client.delete_object` call. -/
inductive Event where
  | rangeRequest : Path → Nat → Nat → Event
  | deleteCall : Path → Event
deriving DecidableEq

/-- The mutable state threaded through a run: the local filesystem, the
per-bucket `downloaded_bytes` counter, and the emitted events. -/
structure RunState where
  fs : FileSystem
  downloaded_bytes : Nat
  events : List Event

/-- The external collaborators: the per-bucket/key range-request oracle,
failure oracles for `os.rename` and `os.makedirs`, and the listing
responses (pages of `list_objects_v2`, with a flag for a `ClientError`
raised after the retrieved pages, and the `list_buckets` response,
`none` when it raises). -/
structure Env where
  fetch : Path → Path → Nat → Nat → FetchResult
  renameFails : Path → Bool
  mkdirFails : Path → Bool
  listObjects : Path → List (Option (List S3Object)) × Bool
  listBuckets : Option (List Path)

/-- Function `delete_s3_object` (lines 85-92): calls `s3_client.delete_object` only
when `delete_file` is set; a `ClientError` from the deletion is only
logged, so the call is recorded unconditionally when attempted. -/
def delete_s3_object (key : Path) (delete_file : Bool) (events : List Event) :
    List Event :=
  if delete_file then events ++ [.deleteCall key] else events

/-- Python's `key.endswith('/')`. -/
def isDirKey (k : Path) : Bool := k.getLast? = some '/'

/-- Function `list_bucket_objects` (lines 94-116): accumulate the objects of all
retrieved pages (pages without `Contents` contribute nothing), splitting
keys that end with `'/'` into directory markers.  A `ClientError` raised
by the paginator (`fails`) is caught and logged; the objects accumulated
up to that point are returned as is. -/
def list_bucket_objects (pages : List (Option (List S3Object))) (fails : Bool) :
    List S3Object × List S3Object :=
  let objs := pages.foldl (fun acc page =>
    match page with
    | none => acc
    | some contents => acc ++ contents) []
  (objs.filter (fun o => !isDirKey o.key), objs.filter (fun o => isDirKey o.key))

/-- Python's `os.path.join(download_dir, bucket_name, key)`. -/
def objectLocalPath (download_dir bucket : Path) (obj : S3Object) : Path :=
  joinPath (joinPath download_dir bucket) obj.key

/-- The `download_file_resumable` call made by `download_bucket_objects`
for one object, reading the local file from the filesystem. -/
def transferAttempt (env : Env) (bucket download_dir : Path) (fs1 : FileSystem)
    (obj : S3Object) : LoopResult :=
  download_file_resumable (env.fetch bucket obj.key)
    (localFileAt fs1 (objectLocalPath download_dir bucket obj)) obj.size

/-- Write the transfer's resulting local file back into the filesystem
(no write happened when the transfer never opened the file). -/
def applyTransfer (fs1 : FileSystem) (local_path : Path) (r : LoopResult) :
    FileSystem :=
  match r.file with
  | some c => updateFs fs1 local_path (.file c)
  | none => fs1

/-- One iteration of the content-object loop of `download_bucket_objects`
(lines 188-211): ensure the parent directory (skipping the object when
that raises), run the resumable transfer, then — only when the transfer
reported success AND the local path exists AND its re-measured size is at
least the declared size — count the object's declared size and request
remote deletion; otherwise leave the remote object intact. -/
def processFileObject (env : Env) (bucket download_dir : Path) (delete_file : Bool)
    (st : RunState) (obj : S3Object) : RunState :=
  match ensure_directory env.renameFails st.fs
      (dirname (objectLocalPath download_dir bucket obj)) with
  | .error _ => st
  | .ok fs1 =>
      let r := transferAttempt env bucket download_dir fs1 obj
      let fs2 := applyTransfer fs1 (objectLocalPath download_dir bucket obj) r
      let evs := st.events ++ r.requests.map (fun q => Event.rangeRequest obj.key q.1 q.2)
      if r.success = true ∧
          pathExists fs2 (objectLocalPath download_dir bucket obj) = true ∧
          obj.size ≤ getSize fs2 (objectLocalPath download_dir bucket obj) then
        ⟨fs2, st.downloaded_bytes + obj.size, delete_s3_object obj.key delete_file evs⟩
      else
        ⟨fs2, st.downloaded_bytes, evs⟩

/-- The content-object loop of `download_bucket_objects`. -/
def processFileObjects (env : Env) (bucket download_dir : Path) (delete_file : Bool) :
    RunState → List S3Object → RunState
  | st, [] => st
  | st, obj :: rest =>
      processFileObjects env bucket download_dir delete_file
        (processFileObject env bucket download_dir delete_file st obj) rest

/-- One iteration of the directory-marker loop of `download_bucket_objects`
(lines 213-223): create the local directory when the path does not exist
(skipping the marker when `os.makedirs` raises), then request deletion of
the marker. -/
def processDirObject (env : Env) (bucket download_dir : Path) (delete_file : Bool)
    (st : RunState) (obj : S3Object) : RunState :=
  let local_path := objectLocalPath download_dir bucket obj
  if pathExists st.fs local_path = true then
    ⟨st.fs, st.downloaded_bytes, delete_s3_object obj.key delete_file st.events⟩
  else if env.mkdirFails local_path = true then st
  else
    ⟨updateFs st.fs local_path .dir, st.downloaded_bytes,
      delete_s3_object obj.key delete_file st.events⟩

/-- The directory-marker loop of `download_bucket_objects`. -/
def processDirObjects (env : Env) (bucket download_dir : Path) (delete_file : Bool) :
    RunState → List S3Object → RunState
  | st, [] => st
  | st, obj :: rest =>
      processDirObjects env bucket download_dir delete_file
        (processDirObject env bucket download_dir delete_file st obj) rest

/-- Function `download_bucket_objects` (lines 173-223): list the bucket, reset the
per-bucket `downloaded_bytes` counter to 0, process content objects, then
directory markers. -/
def download_bucket_objects (env : Env) (bucket download_dir : Path)
    (delete_file : Bool) (st : RunState) : RunState :=
  let listed := env.listObjects bucket
  let objs := list_bucket_objects listed.1 listed.2
  let st1 := processFileObjects env bucket download_dir delete_file
    ⟨st.fs, 0, st.events⟩ objs.1
  processDirObjects env bucket download_dir delete_file st1 objs.2

/-- The bucket loop of `list_and_download_all_buckets` (lines 244-251):
skip ignored buckets, process the others in order. -/
def processBuckets (env : Env) (download_dir : Path) (pats : IgnorePatterns)
    (delete_file : Bool) : RunState → List Path → RunState
  | st, [] => st
  | st, b :: rest =>
      if should_ignore_bucket b pats = true then
        processBuckets env download_dir pats delete_file st rest
      else
        processBuckets env download_dir pats delete_file
          (download_bucket_objects env b download_dir delete_file st) rest

/-- Function `list_and_download_all_buckets` (lines 225-251): a `ClientError` from
`list_buckets` aborts the whole run before any bucket is processed. -/
def list_and_download_all_buckets (env : Env) (download_dir : Path)
    (pats : IgnorePatterns) (delete_file : Bool) (st : RunState) : RunState :=
  match env.listBuckets with
  | none => st
  | some buckets => processBuckets env download_dir pats delete_file st buckets

/-! ### Concrete fixtures for the closed witness theorems -/

/-- An empty local filesystem. -/
def emptyFs : FileSystem := fun _ => none

/-- A fresh run state over an empty filesystem. -/
def initialState : RunState := ⟨emptyFs, 0, []⟩

/-- An environment whose bucket listing yields one page with a single
1-byte object `'k'` and then raises a `ClientError`; range requests are
served honestly from the 1-byte content `[7]`. -/
def oneByteEnv : Env :=
  ⟨fun _ _ => honestFetch [7], fun _ => false, fun _ => false,
    fun _ => ([some [⟨['k'], 1⟩]], true), some [['b']]⟩

/-- An environment whose object listing raises before any page is
retrieved and whose bucket listing raises. -/
def failingListEnv : Env :=
  ⟨fun _ _ _ _ => FetchResult.clientError, fun _ => false, fun _ => false,
    fun _ => ([], true), none⟩

/-- The parent directory of `d/b/k` already created. -/
def parentFs : FileSystem :=
  updateFs emptyFs (dirname (objectLocalPath ['d'] ['b'] ⟨['k'], 1⟩)) .dir

/-! ### Helper lemmas about `List.find?` -/

theorem find?_exists_true {α : Type} (p : α → Bool) (l : List α)
    (h : ∃ x ∈ l, p x = true) :
    ∃ y, l.find? p = some y ∧ y ∈ l ∧ p y = true := by
  have hs : (l.find? p).isSome = true := List.find?_isSome.mpr h
  rcases Option.isSome_iff_exists.mp hs with ⟨y, hy⟩
  exact ⟨y, hy, List.mem_of_find?_eq_some hy, List.find?_some hy⟩

theorem find?_forall_false {α : Type} (p : α → Bool) (l : List α)
    (h : ∀ x ∈ l, p x = false) : l.find? p = none :=
  List.find?_eq_none.mpr (fun x hx => by simp [h x hx])

/-! ### Claim C3: idempotent short-circuit -/

/-- Claim C3: If the observed local file size is already at least the remote
object's declared size, `download_file_resumable` issues no range request,
leaves the local file unchanged, and returns `(True, 0)`; a repeated
invocation on the resulting file is therefore the same no-op. -/
theorem claim_C3_idempotent_short_circuit
    (fetch : Nat → Nat → FetchResult) (file : LocalFile) (expected_size : Nat)
    (h : localSize file ≥ expected_size) :
    download_file_resumable fetch file expected_size =
        ⟨true, 0, file, []⟩ ∧
      download_file_resumable fetch
          (download_file_resumable fetch file expected_size).file expected_size =
        ⟨true, 0, file, []⟩ := by
  have h1 : download_file_resumable fetch file expected_size = ⟨true, 0, file, []⟩ := by
    unfold download_file_resumable
    simp [h]
  refine ⟨h1, ?_⟩
  rw [h1]
  exact h1

/-- Witness for C3 at a concrete input. -/
theorem claim_C3_witness :
    localSize (some [0, 1]) ≥ 2 ∧
      download_file_resumable (fun _ _ => FetchResult.clientError) (some [0, 1]) 2 =
        ⟨true, 0, some [0, 1], []⟩ :=
  ⟨by decide,
    (claim_C3_idempotent_short_circuit (fun _ _ => FetchResult.clientError)
      (some [0, 1]) 2 (by decide)).1⟩

/-! ### Claim C6: ignore-rule evaluation order and short-circuit -/

/-- Claim C6: `should_ignore_bucket` returns `True` iff the name starts with
some `starts_with` rule, or ends with some `ends_with` rule, or contains
some `contains` rule; and rule categories are evaluated in the fixed order
prefix, then suffix, then substring, the first matching category deciding
the logged cause (no later category is consulted once one matches). -/
theorem claim_C6_ignore_order (bucket_name : Path) (pats : IgnorePatterns) :
    (should_ignore_bucket bucket_name pats = true ↔
      (∃ p ∈ pats.starts_with, p.isPrefixOf bucket_name = true) ∨
      (∃ p ∈ pats.ends_with, p.isSuffixOf bucket_name = true) ∨
      (∃ p ∈ pats.contains, isSubstring p bucket_name = true)) ∧
    ((∃ p ∈ pats.starts_with, p.isPrefixOf bucket_name = true) →
      ∃ p, findIgnoreCause bucket_name pats = some (.byStartsWith p) ∧
        p ∈ pats.starts_with ∧ p.isPrefixOf bucket_name = true) ∧
    ((∀ p ∈ pats.starts_with, p.isPrefixOf bucket_name = false) →
      (∃ p ∈ pats.ends_with, p.isSuffixOf bucket_name = true) →
      ∃ p, findIgnoreCause bucket_name pats = some (.byEndsWith p) ∧
        p ∈ pats.ends_with ∧ p.isSuffixOf bucket_name = true) ∧
    ((∀ p ∈ pats.starts_with, p.isPrefixOf bucket_name = false) →
      (∀ p ∈ pats.ends_with, p.isSuffixOf bucket_name = false) →
      (∃ p ∈ pats.contains, isSubstring p bucket_name = true) →
      ∃ p, findIgnoreCause bucket_name pats = some (.byContains p) ∧
        p ∈ pats.contains ∧ isSubstring p bucket_name = true) := by
  refine ⟨?_, ?_, ?_, ?_⟩
  · have hsplit : should_ignore_bucket bucket_name pats = true ↔
        (pats.starts_with.find? (fun p => p.isPrefixOf bucket_name)).isSome = true ∨
        (pats.ends_with.find? (fun p => p.isSuffixOf bucket_name)).isSome = true ∨
        (pats.contains.find? (fun p => isSubstring p bucket_name)).isSome = true := by
      unfold should_ignore_bucket findIgnoreCause
      rcases h1 : pats.starts_with.find? (fun p => p.isPrefixOf bucket_name) with _ | p <;>
        rcases h2 : pats.ends_with.find? (fun p => p.isSuffixOf bucket_name) with _ | q <;>
          rcases h3 : pats.contains.find? (fun p => isSubstring p bucket_name) with _ | r <;>
            simp [h1, h2, h3, Option.or]
    rw [hsplit]
    simp only [List.find?_isSome]
  · intro h
    rcases find?_exists_true _ _ h with ⟨y, hy, hmem, hpy⟩
    exact ⟨y, by unfold findIgnoreCause; rw [hy]; rfl, hmem, hpy⟩
  · intro hpre h
    rcases find?_exists_true _ _ h with ⟨y, hy, hmem, hpy⟩
    have hnone := find?_forall_false (fun p : Path => p.isPrefixOf bucket_name) _ hpre
    exact ⟨y, by unfold findIgnoreCause; rw [hnone, hy]; rfl, hmem, hpy⟩
  · intro hpre hsuf h
    rcases find?_exists_true _ _ h with ⟨y, hy, hmem, hpy⟩
    have hnone1 := find?_forall_false (fun p : Path => p.isPrefixOf bucket_name) _ hpre
    have hnone2 := find?_forall_false (fun p : Path => p.isSuffixOf bucket_name) _ hsuf
    exact ⟨y, by unfold findIgnoreCause; rw [hnone1, hnone2, hy]; rfl, hmem, hpy⟩

/-- Witness for C6: a name matching only a `contains` rule is ignored, with
the substring rule as the logged cause. -/
theorem claim_C6_witness :
    (∀ p ∈ ([['x']] : List Path), p.isPrefixOf ['a', 'y', 'b'] = false) ∧
      (∀ p ∈ ([['x']] : List Path), p.isSuffixOf ['a', 'y', 'b'] = false) ∧
      (∃ p ∈ ([['y']] : List Path), isSubstring p ['a', 'y', 'b'] = true) ∧
      ∃ p, findIgnoreCause ['a', 'y', 'b'] ⟨[['x']], [['x']], [['y']]⟩ =
          some (.byContains p) ∧
        p ∈ ([['y']] : List Path) ∧ isSubstring p ['a', 'y', 'b'] = true :=
  ⟨by decide, by decide, by decide,
    (claim_C6_ignore_order ['a', 'y', 'b'] ⟨[['x']], [['x']], [['y']]⟩).2.2.2
      (by decide) (by decide) (by decide)⟩

/-! ### Transfer-loop lemmas -/

theorem localContent_appendFile (f : LocalFile) (d : List Byte) :
    appendFile f d = some (localContent f ++ d) := by
  cases f <;> simp [appendFile, localContent]

theorem localContent_some (c : List Byte) : localContent (some c) = c := rfl

theorem chunk_size_pos : 1 ≤ chunk_size := by norm_num [chunk_size]

theorem downloadLoop_done (fetch : Nat → Nat → FetchResult) (expected_size : Nat)
    (fuel : Nat) (file : LocalFile) (downloaded new_bytes : Nat)
    (reqs : List (Nat × Nat)) (h : downloaded ≥ expected_size) :
    downloadLoop fetch expected_size fuel file downloaded new_bytes reqs =
      ⟨true, new_bytes, file, reqs⟩ := by
  cases fuel with
  | zero => simp [downloadLoop, decide_eq_true_eq, h]
  | succ n => simp [downloadLoop, Nat.not_lt.mpr h]

theorem min_chunk_pos (k s : Nat) (h : k < s) : 1 ≤ min chunk_size (s - k) :=
  le_min chunk_size_pos (Nat.sub_pos_of_lt h)

theorem end_byte_eq (k s : Nat) (h : k < s) :
    min (k + chunk_size - 1) (s - 1) = k + min chunk_size (s - k) - 1 := by
  have hC := chunk_size_pos
  rcases Nat.le_total chunk_size (s - k) with h1 | h1
  · rw [min_eq_left h1, min_eq_left (by omega)]
  · rw [min_eq_right h1, min_eq_right (by omega)]
    omega

theorem chunkRangesAux_stop (s k : Nat) (h : ¬ k < s) :
    ∀ fuel, chunkRangesAux s fuel k = [] := by
  intro fuel; cases fuel <;> simp [chunkRangesAux, h]

theorem chunkRangesAux_congr (s : Nat) :
    ∀ fuel₁ fuel₂ k, s - k ≤ fuel₁ → s - k ≤ fuel₂ →
      chunkRangesAux s fuel₁ k = chunkRangesAux s fuel₂ k := by
  intro fuel₁
  induction fuel₁ with
  | zero =>
      intro fuel₂ k h1 _
      have hk : ¬ k < s := by omega
      rw [chunkRangesAux_stop s k hk, chunkRangesAux_stop s k hk]
  | succ n ih =>
      intro fuel₂ k h1 h2
      by_cases hk : k < s
      · have hms := min_chunk_pos k s hk
        have hmr : min chunk_size (s - k) ≤ s - k := min_le_right _ _
        cases fuel₂ with
        | zero => omega
        | succ m =>
            have hb1 : s - (k + min chunk_size (s - k)) ≤ n := by omega
            have hb2 : s - (k + min chunk_size (s - k)) ≤ m := by omega
            simp only [chunkRangesAux, if_pos hk]
            congr 1
            exact ih m (k + min chunk_size (s - k)) hb1 hb2
      · rw [chunkRangesAux_stop s k hk, chunkRangesAux_stop s k hk]

theorem chunkRanges_cons (k s : Nat) (h : k < s) :
    chunkRanges k s = (k, min (k + chunk_size - 1) (s - 1)) ::
      chunkRanges (k + min chunk_size (s - k)) s := by
  have hms := min_chunk_pos k s h
  have hmr : min chunk_size (s - k) ≤ s - k := min_le_right _ _
  unfold chunkRanges
  have h2 : chunkRangesAux s (s - k) k = chunkRangesAux s ((s - k - 1) + 1) k :=
    chunkRangesAux_congr s (s - k) ((s - k - 1) + 1) k (le_refl _) (by omega)
  rw [h2]
  simp only [chunkRangesAux, if_pos h]
  congr 1
  exact chunkRangesAux_congr s (s - k - 1) (s - (k + min chunk_size (s - k)))
    (k + min chunk_size (s - k)) (by omega) (by omega)

theorem chunkRanges_stop (k s : Nat) (h : ¬ k < s) : chunkRanges k s = [] :=
  chunkRangesAux_stop s k h _

theorem honest_data_len (content : List Byte) (k : Nat) (h : k < content.length) :
    ((content.drop k).take (min (k + chunk_size - 1) (content.length - 1) - k + 1)).length
      = min chunk_size (content.length - k) := by
  rw [List.length_take, List.length_drop, end_byte_eq k _ h]
  have h1 := min_chunk_pos k content.length h
  have h2 : min chunk_size (content.length - k) ≤ content.length - k := min_le_right _ _
  omega

theorem downloadLoop_honest (content : List Byte) :
    ∀ fuel k file new_bytes reqs,
      localContent file = content.take k → k < content.length →
      content.length - k ≤ fuel →
      downloadLoop (honestFetch content) content.length fuel file k new_bytes reqs =
        ⟨true, new_bytes + (content.length - k), some content,
          reqs ++ chunkRanges k content.length⟩ := by
  intro fuel
  induction fuel with
  | zero => intro k file nb reqs _ hk hf; omega
  | succ n ih =>
      intro k file nb reqs hc hk hf
      have hms := min_chunk_pos k content.length hk
      have hmr : min chunk_size (content.length - k) ≤ content.length - k :=
        min_le_right _ _
      have hlen := honest_data_len content k hk
      have hfe : honestFetch content k (min (k + chunk_size - 1) (content.length - 1)) =
          .ok ((content.drop k).take
            (min (k + chunk_size - 1) (content.length - 1) - k + 1)) := rfl
      have hne : ((content.drop k).take
          (min (k + chunk_size - 1) (content.length - 1) - k + 1)).isEmpty = false := by
        cases hcs : (content.drop k).take
            (min (k + chunk_size - 1) (content.length - 1) - k + 1) with
        | nil => rw [hcs] at hlen; simp at hlen; omega
        | cons a t => rfl
      rw [downloadLoop, if_pos hk, hfe]
      simp only [hne, Bool.false_eq_true, if_false]
      have hcontent : localContent (appendFile file ((content.drop k).take
          (min (k + chunk_size - 1) (content.length - 1) - k + 1))) =
          content.take (k + min chunk_size (content.length - k)) := by
        rw [localContent_appendFile, localContent_some]
        rw [hc, end_byte_eq k _ hk]
        have : min chunk_size (content.length - k) =
            k + min chunk_size (content.length - k) - 1 - k + 1 := by omega
        rw [← this, ← List.take_add]
      by_cases hk' : k + min chunk_size (content.length - k) < content.length
      · rw [hlen]
        rw [ih _ _ _ _ hcontent hk' (by omega)]
        rw [chunkRanges_cons k _ hk]
        congr 1
        · omega
        · simp
      · have heq : k + min chunk_size (content.length - k) = content.length := by omega
        rw [hlen, downloadLoop_done _ _ _ _ _ _ _ (by omega)]
        have hfull : appendFile file ((content.drop k).take
            (min (k + chunk_size - 1) (content.length - 1) - k + 1)) = some content := by
          have h3 := hcontent
          rw [localContent_appendFile, localContent_some] at h3
          rw [localContent_appendFile, h3, heq, List.take_length]
        rw [hfull]
        rw [chunkRanges_cons k _ hk, chunkRanges_stop _ _ (by omega)]
        congr 2
        omega

theorem download_file_resumable_honest (content : List Byte) (file : LocalFile)
    (k : Nat) (hc : localContent file = content.take k) (hk : k < content.length) :
    download_file_resumable (honestFetch content) file content.length =
      ⟨true, content.length - k, some content, chunkRanges k content.length⟩ := by
  have hsize : localSize file = k := by
    rw [localSize, hc, List.length_take]
    exact min_eq_left (le_of_lt hk)
  unfold download_file_resumable
  rw [hsize, if_neg (by omega)]
  have := downloadLoop_honest content (content.length - k + 1) k file 0 [] hc hk (by omega)
  simpa using this

theorem coversRange_chunkRangesAux (s : Nat) :
    ∀ fuel k, k < s → s - k ≤ fuel →
      coversRange (chunkRangesAux s fuel k) k (s - 1) := by
  intro fuel
  induction fuel with
  | zero => intro k hk hf; omega
  | succ n ih =>
      intro k hk hf
      have hC := chunk_size_pos
      have hms := min_chunk_pos k s hk
      have hmr : min chunk_size (s - k) ≤ s - k := min_le_right _ _
      have hend := end_byte_eq k s hk
      simp only [chunkRangesAux, if_pos hk]
      refine ⟨rfl, ?_, ?_, ?_⟩
      · omega
      · exact min_le_right _ _
      · have he : min (k + chunk_size - 1) (s - 1) + 1 =
            k + min chunk_size (s - k) := by omega
        rw [he]
        by_cases hk' : k + min chunk_size (s - k) < s
        · exact ih _ hk' (by omega)
        · rw [chunkRangesAux_stop s _ (by omega)]
          simp only [coversRange]
          omega

theorem coversRange_chunkRanges (k s : Nat) (h : k < s) :
    coversRange (chunkRanges k s) k (s - 1) :=
  coversRange_chunkRangesAux s (s - k) k h (le_refl _)

theorem chunkRangesAux_width (s : Nat) :
    ∀ fuel k q, q ∈ chunkRangesAux s fuel k → q.2 + 1 - q.1 ≤ chunk_size := by
  intro fuel
  induction fuel with
  | zero => intro k q hq; simp [chunkRangesAux] at hq
  | succ n ih =>
      intro k q hq
      by_cases hk : k < s
      · simp only [chunkRangesAux, if_pos hk, List.mem_cons] at hq
        rcases hq with rfl | hq
        · have h1 : min (k + chunk_size - 1) (s - 1) ≤ k + chunk_size - 1 :=
            min_le_left _ _
          have hC := chunk_size_pos
          simp only
          omega
        · exact ih _ _ hq
      · rw [chunkRangesAux_stop s k hk] at hq
        cases hq

theorem chunkRanges_width (k s : Nat) (q : Nat × Nat) (hq : q ∈ chunkRanges k s) :
    q.2 + 1 - q.1 ≤ chunk_size :=
  chunkRangesAux_width s (s - k) k q hq

/-! ### Claim C1: resume correctness -/

/-- Claim C1: For a remote object of `s` bytes and a local file holding the
correct first `k` bytes (`0 < k < s`), a transfer against the honest range
oracle succeeds, requests exactly the ranges `chunkRanges k s` — which
cover exactly `[k, s-1]` in consecutive chunks of at most `chunk_size`
bytes — appends without truncation, and leaves the local file equal to
the full remote content. -/
theorem claim_C1_resume_correctness (content : List Byte) (k : Nat)
    (h0 : 0 < k) (hk : k < content.length) :
    download_file_resumable (honestFetch content) (some (content.take k))
        content.length =
      ⟨true, content.length - k, some content, chunkRanges k content.length⟩ ∧
    coversRange (chunkRanges k content.length) k (content.length - 1) ∧
    ∀ q ∈ chunkRanges k content.length, q.2 + 1 - q.1 ≤ chunk_size := by
  refine ⟨?_, coversRange_chunkRanges k _ hk, fun q hq => chunkRanges_width _ _ q hq⟩
  exact download_file_resumable_honest content _ k (by simp [localContent]) hk

/-- Witness for C1 at a concrete input: 3-byte object, 1 byte local. -/
theorem claim_C1_witness :
    0 < 1 ∧ 1 < ([5, 6, 7] : List Byte).length ∧
      (download_file_resumable (honestFetch [5, 6, 7])
          (some (([5, 6, 7] : List Byte).take 1)) ([5, 6, 7] : List Byte).length).file =
        some [5, 6, 7] :=
  ⟨by decide, by decide, by
    rw [(claim_C1_resume_correctness [5, 6, 7] 1 (by decide) (by decide)).1]⟩

/-! ### Claim C5: chunk boundary -/

/-- Claim C5: For a remote object of exactly `8 MiB + 1 = 8388609` bytes and
no pre-existing local file, a successful transfer issues exactly two range
requests: `[0, 8388607]` and `[8388608, 8388608]`. -/
theorem claim_C5_chunk_boundary (content : List Byte)
    (h : content.length = 8388609) :
    download_file_resumable (honestFetch content) none content.length =
      ⟨true, 8388609, some content, [(0, 8388607), (8388608, 8388608)]⟩ := by
  have hc : localContent (none : LocalFile) = content.take 0 := by
    simp [localContent]
  have h0 : (0 : Nat) < content.length := by omega
  rw [download_file_resumable_honest content none 0 hc h0]
  have hcs : chunk_size = 8388608 := by norm_num [chunk_size]
  have hcr : chunkRanges 0 content.length = [(0, 8388607), (8388608, 8388608)] := by
    rw [h]
    rw [chunkRanges_cons 0 8388609 (by norm_num)]
    rw [hcs]
    norm_num [Nat.min_def]
    rw [chunkRanges_cons 8388608 8388609 (by norm_num)]
    rw [hcs]
    norm_num [Nat.min_def]
    exact chunkRanges_stop _ _ (by norm_num)
  rw [hcr, h]

/-- Witness for C5 at a concrete input. -/
theorem claim_C5_witness :
    (List.replicate 8388609 (0 : Byte)).length = 8388609 ∧
      download_file_resumable (honestFetch (List.replicate 8388609 (0 : Byte))) none
          (List.replicate 8388609 (0 : Byte)).length =
        ⟨true, 8388609, some (List.replicate 8388609 (0 : Byte)),
          [(0, 8388607), (8388608, 8388608)]⟩ :=
  ⟨by rw [List.length_replicate],
    claim_C5_chunk_boundary _ (by rw [List.length_replicate])⟩

/-! ### Claim C4: fetch-failure containment -/

theorem localContent_appendFile' (f : LocalFile) (d : List Byte) :
    localContent (appendFile f d) = localContent f ++ d := by
  rw [localContent_appendFile, localContent_some]

theorem downloadLoop_step_err (fetch : Nat → Nat → FetchResult) (s n : Nat)
    (file : LocalFile) (d nb : Nat) (reqs : List (Nat × Nat)) (hd : d < s)
    (hf : fetch d (min (d + chunk_size - 1) (s - 1)) = .clientError) :
    downloadLoop fetch s (n + 1) file d nb reqs =
      ⟨false, nb, file, reqs ++ [(d, min (d + chunk_size - 1) (s - 1))]⟩ := by
  rw [downloadLoop, if_pos hd, hf]

theorem downloadLoop_step_empty (fetch : Nat → Nat → FetchResult) (s n : Nat)
    (file : LocalFile) (d nb : Nat) (reqs : List (Nat × Nat)) (data : List Byte)
    (hd : d < s) (hf : fetch d (min (d + chunk_size - 1) (s - 1)) = .ok data)
    (he : data.isEmpty = true) :
    downloadLoop fetch s (n + 1) file d nb reqs =
      ⟨false, nb, file, reqs ++ [(d, min (d + chunk_size - 1) (s - 1))]⟩ := by
  rw [downloadLoop, if_pos hd, hf]
  simp [he]

theorem downloadLoop_step_ok (fetch : Nat → Nat → FetchResult) (s n : Nat)
    (file : LocalFile) (d nb : Nat) (reqs : List (Nat × Nat)) (data : List Byte)
    (hd : d < s) (hf : fetch d (min (d + chunk_size - 1) (s - 1)) = .ok data)
    (he : data.isEmpty = false) :
    downloadLoop fetch s (n + 1) file d nb reqs =
      downloadLoop fetch s n (appendFile file data) (d + data.length)
        (nb + data.length) (reqs ++ [(d, min (d + chunk_size - 1) (s - 1))]) := by
  rw [downloadLoop, if_pos hd, hf]
  simp [he]

theorem downloadLoop_frame (fetch : Nat → Nat → FetchResult) (s : Nat) :
    ∀ fuel file d nb reqs,
      ∃ extra more,
        localContent (downloadLoop fetch s fuel file d nb reqs).file =
            localContent file ++ extra ∧
          (downloadLoop fetch s fuel file d nb reqs).newBytes = nb + extra.length ∧
          (downloadLoop fetch s fuel file d nb reqs).requests = reqs ++ more := by
  intro fuel
  induction fuel with
  | zero =>
      intro file d nb reqs
      exact ⟨[], [], by simp [downloadLoop], by simp [downloadLoop],
        by simp [downloadLoop]⟩
  | succ n ih =>
      intro file d nb reqs
      by_cases hd : d < s
      · cases hf : fetch d (min (d + chunk_size - 1) (s - 1)) with
        | clientError =>
            refine ⟨[], [(d, min (d + chunk_size - 1) (s - 1))], ?_, ?_, ?_⟩ <;>
              rw [downloadLoop_step_err fetch s n file d nb reqs hd hf] <;> simp
        | ok data =>
            by_cases he : data.isEmpty = true
            · refine ⟨[], [(d, min (d + chunk_size - 1) (s - 1))], ?_, ?_, ?_⟩ <;>
                rw [downloadLoop_step_empty fetch s n file d nb reqs data hd hf he] <;>
                  simp
            · have he' : data.isEmpty = false := by
                revert he; cases data.isEmpty <;> simp
              rcases ih (appendFile file data) (d + data.length) (nb + data.length)
                  (reqs ++ [(d, min (d + chunk_size - 1) (s - 1))]) with
                ⟨extra, more, h1, h2, h3⟩
              refine ⟨data ++ extra, (d, min (d + chunk_size - 1) (s - 1)) :: more,
                ?_, ?_, ?_⟩
              · rw [downloadLoop_step_ok fetch s n file d nb reqs data hd hf he', h1,
                  localContent_appendFile', List.append_assoc]
              · rw [downloadLoop_step_ok fetch s n file d nb reqs data hd hf he', h2]
                simp [Nat.add_assoc]
              · rw [downloadLoop_step_ok fetch s n file d nb reqs data hd hf he', h3]
                simp
      · refine ⟨[], [], ?_, ?_, ?_⟩ <;>
          rw [downloadLoop_done fetch s (n + 1) file d nb reqs (by omega)] <;> simp

theorem downloadLoop_success_no_error (fetch : Nat → Nat → FetchResult) (s : Nat) :
    ∀ fuel file d nb reqs,
      (downloadLoop fetch s fuel file d nb reqs).success = true →
      ∀ q ∈ (downloadLoop fetch s fuel file d nb reqs).requests,
        q ∈ reqs ∨ fetch q.1 q.2 ≠ .clientError := by
  intro fuel
  induction fuel with
  | zero =>
      intro file d nb reqs _ q hq
      left
      simpa [downloadLoop] using hq
  | succ n ih =>
      intro file d nb reqs hs q hq
      by_cases hd : d < s
      · cases hf : fetch d (min (d + chunk_size - 1) (s - 1)) with
        | clientError =>
            rw [downloadLoop_step_err fetch s n file d nb reqs hd hf] at hs
            simp at hs
        | ok data =>
            by_cases he : data.isEmpty = true
            · rw [downloadLoop_step_empty fetch s n file d nb reqs data hd hf he] at hs
              simp at hs
            · have he' : data.isEmpty = false := by
                revert he; cases data.isEmpty <;> simp
              rw [downloadLoop_step_ok fetch s n file d nb reqs data hd hf he'] at hs hq
              rcases ih (appendFile file data) (d + data.length) (nb + data.length)
                  (reqs ++ [(d, min (d + chunk_size - 1) (s - 1))]) hs q hq with
                hmem | hne
              · rcases List.mem_append.mp hmem with hl | hr
                · exact Or.inl hl
                · right
                  have hq2 : q = (d, min (d + chunk_size - 1) (s - 1)) := by
                    simpa using hr
                  rw [hq2]
                  simp [hf]
              · exact Or.inr hne
      · rw [downloadLoop_done fetch s (n + 1) file d nb reqs (by omega)] at hq
        exact Or.inl hq

theorem download_file_resumable_frame (fetch : Nat → Nat → FetchResult)
    (file : LocalFile) (size : Nat) :
    ∃ extra,
      localContent (download_file_resumable fetch file size).file =
          localContent file ++ extra ∧
        (download_file_resumable fetch file size).newBytes = extra.length := by
  unfold download_file_resumable
  by_cases h : localSize file ≥ size
  · rw [if_pos h]
    exact ⟨[], by simp, rfl⟩
  · rw [if_neg h]
    rcases downloadLoop_frame fetch size (size - localSize file + 1) file
        (localSize file) 0 [] with ⟨extra, more, h1, h2, h3⟩
    exact ⟨extra, h1, by simpa using h2⟩

/-- Claim C4: A transfer in which some requested chunk range got a
`ClientError` returns `completed = false` together with the number of
bytes appended before the failure (the previous local content is
preserved as a prefix); no exception propagates: the bucket loop
unconditionally continues with the remaining sibling objects. -/
theorem claim_C4_fetch_failure (fetch : Nat → Nat → FetchResult) (file : LocalFile)
    (expected_size : Nat)
    (h : ∃ q ∈ (download_file_resumable fetch file expected_size).requests,
        fetch q.1 q.2 = .clientError) :
    (download_file_resumable fetch file expected_size).success = false ∧
    (∃ extra,
      localContent (download_file_resumable fetch file expected_size).file =
          localContent file ++ extra ∧
        (download_file_resumable fetch file expected_size).newBytes = extra.length) ∧
    ∀ (env : Env) (bucket download_dir : Path) (delete_file : Bool)
      (st : RunState) (obj : S3Object) (rest : List S3Object),
      processFileObjects env bucket download_dir delete_file st (obj :: rest) =
        processFileObjects env bucket download_dir delete_file
          (processFileObject env bucket download_dir delete_file st obj) rest := by
  refine ⟨?_, download_file_resumable_frame fetch file expected_size,
    fun _ _ _ _ _ _ _ => rfl⟩
  by_contra hsucc
  have hs : (download_file_resumable fetch file expected_size).success = true := by
    revert hsucc
    cases (download_file_resumable fetch file expected_size).success <;> simp
  rcases h with ⟨q, hq, hqe⟩
  unfold download_file_resumable at hs hq
  by_cases hge : localSize file ≥ expected_size
  · rw [if_pos hge] at hq
    simp at hq
  · rw [if_neg hge] at hs hq
    rcases downloadLoop_success_no_error fetch expected_size
        (expected_size - localSize file + 1) file (localSize file) 0 [] hs q hq with
      hmem | hne
    · simp at hmem
    · exact hne hqe

/-- Witness for C4 at a concrete input: every range request fails. -/
theorem claim_C4_witness :
    (∃ q ∈ (download_file_resumable (fun _ _ => FetchResult.clientError) none
        1).requests,
      (fun _ _ => FetchResult.clientError : Nat → Nat → FetchResult) q.1 q.2 =
        FetchResult.clientError) ∧
      (download_file_resumable (fun _ _ => FetchResult.clientError) none 1).success =
        false :=
  ⟨by decide,
    (claim_C4_fetch_failure (fun _ _ => FetchResult.clientError) none 1 (by decide)).1⟩

/-! ### Claim C7: directory-ensure conflict policy -/

theorem conflict_suffix_ne (path : Path) : path ++ conflict_suffix ≠ path := by
  intro h
  have hl := congrArg List.length h
  rw [List.length_append] at hl
  simp [conflict_suffix] at hl

/-- Claim C7: `ensure_directory` is a no-op when the path is already a
directory; when the path holds a plain file and the rename succeeds, the
path becomes a directory and the original content survives unchanged at
`path ++ "_file_conflict"`; when the rename fails the error propagates,
and the orchestrator skips only that one object, the rest of the bucket
still being processed from the unchanged state. -/
theorem claim_C7_directory_conflict (renameFails : Path → Bool) (fs : FileSystem)
    (path : Path) :
    (fs path = some .dir → ensure_directory renameFails fs path = .ok fs) ∧
    (∀ c, fs path = some (.file c) → renameFails path = false →
      ∃ fs', ensure_directory renameFails fs path = .ok fs' ∧
        fs' path = some .dir ∧ fs' (path ++ conflict_suffix) = some (.file c)) ∧
    (∀ c, fs path = some (.file c) → renameFails path = true →
      ensure_directory renameFails fs path = .error ()) ∧
    (∀ (env : Env) (bucket download_dir : Path) (delete_file : Bool)
        (st : RunState) (obj : S3Object) (rest : List S3Object),
      ensure_directory env.renameFails st.fs
          (dirname (objectLocalPath download_dir bucket obj)) = .error () →
      processFileObject env bucket download_dir delete_file st obj = st ∧
        processFileObjects env bucket download_dir delete_file st (obj :: rest) =
          processFileObjects env bucket download_dir delete_file st rest) := by
  refine ⟨?_, ?_, ?_, ?_⟩
  · intro h
    simp [ensure_directory, h]
  · intro c h hrf
    refine ⟨updateFs (removeFs (updateFs fs (path ++ conflict_suffix) (.file c)) path)
      path .dir, ?_, ?_, ?_⟩
    · simp [ensure_directory, h, hrf]
    · simp [updateFs]
    · simp [updateFs, removeFs, conflict_suffix_ne path]
  · intro c h hrf
    simp [ensure_directory, h, hrf]
  · intro env bucket download_dir delete_file st obj rest hens
    have hstep : processFileObject env bucket download_dir delete_file st obj = st := by
      unfold processFileObject
      rw [hens]
    refine ⟨hstep, ?_⟩
    show processFileObjects env bucket download_dir delete_file
        (processFileObject env bucket download_dir delete_file st obj) rest =
      processFileObjects env bucket download_dir delete_file st rest
    rw [hstep]

/-- Witness for C7: a plain file at `['a']` is renamed aside and the path
becomes a directory. -/
theorem claim_C7_witness :
    (fun q => if q = ['a'] then some (Entry.file [1]) else none : FileSystem) ['a'] =
        some (Entry.file [1]) ∧
      ∃ fs', ensure_directory (fun _ => false)
          (fun q => if q = ['a'] then some (Entry.file [1]) else none) ['a'] = .ok fs' ∧
        fs' ['a'] = some .dir ∧
        fs' (['a'] ++ conflict_suffix) = some (Entry.file [1]) :=
  ⟨by decide,
    (claim_C7_directory_conflict (fun _ => false)
      (fun q => if q = ['a'] then some (Entry.file [1]) else none) ['a']).2.1
      [1] (by decide) rfl⟩

/-! ### Claim C8: marker handling -/

/-- Claim C8: For a directory-marker object: the local directory is created
when the path is absent and `os.makedirs` succeeds; deletion of the marker
is requested exactly when the deletion flag is set and the local directory
exists after the step — in particular a marker whose directory could not
be materialized is not deleted.  (On a real filesystem a marker path,
which ends in `'/'`, can never hold a plain file; the `hwf` hypothesis
records this well-formedness.) -/
theorem claim_C8_marker_handling (env : Env) (bucket download_dir : Path)
    (delete_file : Bool) (st : RunState) (obj : S3Object)
    (hwf : ∀ c, st.fs (objectLocalPath download_dir bucket obj) ≠ some (.file c))
    (hnew : Event.deleteCall obj.key ∉ st.events) :
    ((st.fs (objectLocalPath download_dir bucket obj) = none →
      env.mkdirFails (objectLocalPath download_dir bucket obj) = false →
      (processDirObject env bucket download_dir delete_file st obj).fs
        (objectLocalPath download_dir bucket obj) = some .dir)) ∧
    (Event.deleteCall obj.key ∈
        (processDirObject env bucket download_dir delete_file st obj).events ↔
      delete_file = true ∧
        (processDirObject env bucket download_dir delete_file st obj).fs
          (objectLocalPath download_dir bucket obj) = some .dir) := by
  rcases hfs : st.fs (objectLocalPath download_dir bucket obj) with _ | e
  · by_cases hmk : env.mkdirFails (objectLocalPath download_dir bucket obj) = true
    · have hstep : processDirObject env bucket download_dir delete_file st obj = st := by
        unfold processDirObject
        rw [if_neg (by simp [pathExists, hfs]), if_pos hmk]
      rw [hstep]
      constructor
      · intro _ hmk2
        rw [hmk] at hmk2
        exact Bool.noConfusion hmk2
      · rw [hfs]
        simp [hnew]
    · have hmk' : env.mkdirFails (objectLocalPath download_dir bucket obj) = false := by
        revert hmk; cases env.mkdirFails (objectLocalPath download_dir bucket obj) <;> simp
      have hstep : processDirObject env bucket download_dir delete_file st obj =
          ⟨updateFs st.fs (objectLocalPath download_dir bucket obj) .dir,
            st.downloaded_bytes,
            delete_s3_object obj.key delete_file st.events⟩ := by
        unfold processDirObject
        rw [if_neg (by simp [pathExists, hfs]), if_neg (by simp [hmk'])]
      rw [hstep]
      constructor
      · intro _ _
        simp [updateFs]
      · simp only [updateFs, if_pos rfl]
        unfold delete_s3_object
        cases delete_file <;> simp [hnew]
  · cases e with
    | file c => exact absurd hfs (hwf c)
    | dir =>
        have hstep : processDirObject env bucket download_dir delete_file st obj =
            ⟨st.fs, st.downloaded_bytes,
              delete_s3_object obj.key delete_file st.events⟩ := by
          unfold processDirObject
          rw [if_pos (by simp [pathExists, hfs])]
        rw [hstep]
        constructor
        · intro _ _
          exact hfs
        · rw [hfs]
          unfold delete_s3_object
          cases delete_file <;> simp [hnew]

/-- Witness for C8: an absent marker directory is created and the marker
deleted. -/
theorem claim_C8_witness :
    (initialState.fs (objectLocalPath ['d'] ['b'] ⟨['m', '/'], 0⟩) = none) ∧
      (Event.deleteCall ['m', '/'] ∈
          (processDirObject oneByteEnv ['b'] ['d'] true initialState
            ⟨['m', '/'], 0⟩).events ↔
        true = true ∧
          (processDirObject oneByteEnv ['b'] ['d'] true initialState
            ⟨['m', '/'], 0⟩).fs (objectLocalPath ['d'] ['b'] ⟨['m', '/'], 0⟩) =
            some .dir) :=
  ⟨rfl,
    (claim_C8_marker_handling oneByteEnv ['b'] ['d'] true initialState ⟨['m', '/'], 0⟩
      (fun c h => Option.noConfusion h) (by simp [initialState])).2⟩

/-! ### Claim C2: deletion gate -/

theorem mem_delete_s3_object (key k : Path) (df : Bool) (evs : List Event) :
    (Event.deleteCall k ∈ delete_s3_object key df evs) ↔
      Event.deleteCall k ∈ evs ∨ (df = true ∧ k = key) := by
  unfold delete_s3_object
  cases df <;> simp

theorem deleteCall_not_mem_range_map (k key : Path) (reqs : List (Nat × Nat)) :
    Event.deleteCall k ∉ reqs.map (fun q => Event.rangeRequest key q.1 q.2) := by
  intro h
  rcases List.mem_map.mp h with ⟨q, _, hq⟩
  exact Event.noConfusion hq

theorem processFileObject_err (env : Env) (bucket download_dir : Path)
    (delete_file : Bool) (st : RunState) (obj : S3Object)
    (hens : ensure_directory env.renameFails st.fs
        (dirname (objectLocalPath download_dir bucket obj)) = .error ()) :
    processFileObject env bucket download_dir delete_file st obj = st := by
  unfold processFileObject
  rw [hens]

theorem processFileObject_eq (env : Env) (bucket download_dir : Path)
    (delete_file : Bool) (st : RunState) (obj : S3Object) (fs1 : FileSystem)
    (hens : ensure_directory env.renameFails st.fs
        (dirname (objectLocalPath download_dir bucket obj)) = .ok fs1) :
    processFileObject env bucket download_dir delete_file st obj =
      if (transferAttempt env bucket download_dir fs1 obj).success = true ∧
          pathExists (applyTransfer fs1 (objectLocalPath download_dir bucket obj)
              (transferAttempt env bucket download_dir fs1 obj))
            (objectLocalPath download_dir bucket obj) = true ∧
          obj.size ≤ getSize (applyTransfer fs1 (objectLocalPath download_dir bucket obj)
              (transferAttempt env bucket download_dir fs1 obj))
            (objectLocalPath download_dir bucket obj) then
        ⟨applyTransfer fs1 (objectLocalPath download_dir bucket obj)
            (transferAttempt env bucket download_dir fs1 obj),
          st.downloaded_bytes + obj.size,
          delete_s3_object obj.key delete_file
            (st.events ++ (transferAttempt env bucket download_dir fs1 obj).requests.map
              (fun q => Event.rangeRequest obj.key q.1 q.2))⟩
      else
        ⟨applyTransfer fs1 (objectLocalPath download_dir bucket obj)
            (transferAttempt env bucket download_dir fs1 obj),
          st.downloaded_bytes,
          st.events ++ (transferAttempt env bucket download_dir fs1 obj).requests.map
            (fun q => Event.rangeRequest obj.key q.1 q.2)⟩ := by
  unfold processFileObject
  rw [hens]

theorem processFileObject_delete_mem (env : Env) (bucket download_dir : Path)
    (delete_file : Bool) (st : RunState) (obj : S3Object) (key : Path)
    (h : Event.deleteCall key ∈
      (processFileObject env bucket download_dir delete_file st obj).events) :
    Event.deleteCall key ∈ st.events ∨
      (delete_file = true ∧ key = obj.key ∧ ∃ fsx : FileSystem,
        ensure_directory env.renameFails st.fs
            (dirname (objectLocalPath download_dir bucket obj)) = .ok fsx ∧
        (transferAttempt env bucket download_dir fsx obj).success = true ∧
        pathExists (applyTransfer fsx (objectLocalPath download_dir bucket obj)
            (transferAttempt env bucket download_dir fsx obj))
          (objectLocalPath download_dir bucket obj) = true ∧
        obj.size ≤ getSize (applyTransfer fsx (objectLocalPath download_dir bucket obj)
            (transferAttempt env bucket download_dir fsx obj))
          (objectLocalPath download_dir bucket obj)) := by
  cases hE : ensure_directory env.renameFails st.fs
      (dirname (objectLocalPath download_dir bucket obj)) with
  | error e =>
      rw [processFileObject_err env bucket download_dir delete_file st obj
        (by cases e; exact hE)] at h
      exact Or.inl h
  | ok fs1 =>
      rw [processFileObject_eq env bucket download_dir delete_file st obj fs1 hE] at h
      by_cases hg : (transferAttempt env bucket download_dir fs1 obj).success = true ∧
          pathExists (applyTransfer fs1 (objectLocalPath download_dir bucket obj)
              (transferAttempt env bucket download_dir fs1 obj))
            (objectLocalPath download_dir bucket obj) = true ∧
          obj.size ≤ getSize (applyTransfer fs1 (objectLocalPath download_dir bucket obj)
              (transferAttempt env bucket download_dir fs1 obj))
            (objectLocalPath download_dir bucket obj)
      · rw [if_pos hg] at h
        rcases (mem_delete_s3_object obj.key key delete_file _).mp h with hmem | ⟨hdf, hkey⟩
        · rcases List.mem_append.mp hmem with hl | hr
          · exact Or.inl hl
          · exact absurd hr (deleteCall_not_mem_range_map key obj.key _)
        · exact Or.inr ⟨hdf, hkey, fs1, rfl, hg.1, hg.2.1, hg.2.2⟩
      · rw [if_neg hg] at h
        rcases List.mem_append.mp h with hl | hr
        · exact Or.inl hl
        · exact absurd hr (deleteCall_not_mem_range_map key obj.key _)

theorem processFileObjects_delete_split (env : Env) (bucket download_dir : Path)
    (delete_file : Bool) (key : Path) :
    ∀ (objs : List S3Object) (st : RunState),
      Event.deleteCall key ∈
        (processFileObjects env bucket download_dir delete_file st objs).events →
      Event.deleteCall key ∈ st.events ∨
        (delete_file = true ∧ ∃ pre o post, objs = pre ++ o :: post ∧ o.key = key ∧
          ∃ fsx : FileSystem,
            ensure_directory env.renameFails
                (processFileObjects env bucket download_dir delete_file st pre).fs
                (dirname (objectLocalPath download_dir bucket o)) = .ok fsx ∧
            (transferAttempt env bucket download_dir fsx o).success = true ∧
            pathExists (applyTransfer fsx (objectLocalPath download_dir bucket o)
                (transferAttempt env bucket download_dir fsx o))
              (objectLocalPath download_dir bucket o) = true ∧
            o.size ≤ getSize (applyTransfer fsx (objectLocalPath download_dir bucket o)
                (transferAttempt env bucket download_dir fsx o))
              (objectLocalPath download_dir bucket o)) := by
  intro objs
  induction objs with
  | nil => intro st h; exact Or.inl h
  | cons o rest ih =>
      intro st h
      rcases ih (processFileObject env bucket download_dir delete_file st o) h with
        hstep | ⟨hdf, pre, o', post, hsplit, hkey, fsx, hens, hrest⟩
      · rcases processFileObject_delete_mem env bucket download_dir delete_file st o key
            hstep with hl | ⟨hdf, hkey, fsx, hens, hx⟩
        · exact Or.inl hl
        · exact Or.inr ⟨hdf, [], o, rest, rfl, hkey.symm, fsx, hens, hx⟩
      · exact Or.inr ⟨hdf, o :: pre, o', post, by rw [hsplit, List.cons_append],
          hkey, fsx, hens, hrest⟩

/-- Claim C2: For a content object whose parent directory was ensured
(`hens`), deletion of the object's key is requested exactly when the
deletion flag is set AND the transfer reported success AND the re-measured
local file (which must exist) is at least the declared size; exactly when
success and the size re-measurement hold, the running counter grows by the
declared size (not by `bytesMovedThisCall`); otherwise the counter is
unchanged and no deletion is requested.  Moreover, over a whole bucket
run: every deletion of a key is traceable to the step of an object with
that key at which the transfer, run from the actual intermediate state of
the run, reported success with the size re-measurement holding; hence a
key whose transfer attempt fails at its actual intermediate state — e.g.
a fetch failing after a partial download — is never deleted in that
run. -/
theorem claim_C2_deletion_gate (env : Env) (bucket download_dir : Path)
    (delete_file : Bool) (st : RunState) (obj : S3Object) (fs1 : FileSystem)
    (hens : ensure_directory env.renameFails st.fs
        (dirname (objectLocalPath download_dir bucket obj)) = .ok fs1)
    (hnew : Event.deleteCall obj.key ∉ st.events) :
    ((Event.deleteCall obj.key ∈
        (processFileObject env bucket download_dir delete_file st obj).events) ↔
      (delete_file = true ∧
        (transferAttempt env bucket download_dir fs1 obj).success = true ∧
        pathExists (applyTransfer fs1 (objectLocalPath download_dir bucket obj)
            (transferAttempt env bucket download_dir fs1 obj))
          (objectLocalPath download_dir bucket obj) = true ∧
        obj.size ≤ getSize (applyTransfer fs1 (objectLocalPath download_dir bucket obj)
            (transferAttempt env bucket download_dir fs1 obj))
          (objectLocalPath download_dir bucket obj))) ∧
    (((transferAttempt env bucket download_dir fs1 obj).success = true ∧
        pathExists (applyTransfer fs1 (objectLocalPath download_dir bucket obj)
            (transferAttempt env bucket download_dir fs1 obj))
          (objectLocalPath download_dir bucket obj) = true ∧
        obj.size ≤ getSize (applyTransfer fs1 (objectLocalPath download_dir bucket obj)
            (transferAttempt env bucket download_dir fs1 obj))
          (objectLocalPath download_dir bucket obj)) →
      (processFileObject env bucket download_dir delete_file st obj).downloaded_bytes =
        st.downloaded_bytes + obj.size) ∧
    (¬((transferAttempt env bucket download_dir fs1 obj).success = true ∧
        pathExists (applyTransfer fs1 (objectLocalPath download_dir bucket obj)
            (transferAttempt env bucket download_dir fs1 obj))
          (objectLocalPath download_dir bucket obj) = true ∧
        obj.size ≤ getSize (applyTransfer fs1 (objectLocalPath download_dir bucket obj)
            (transferAttempt env bucket download_dir fs1 obj))
          (objectLocalPath download_dir bucket obj)) →
      (processFileObject env bucket download_dir delete_file st obj).downloaded_bytes =
          st.downloaded_bytes ∧
        Event.deleteCall obj.key ∉
          (processFileObject env bucket download_dir delete_file st obj).events) ∧
    (∀ (objs : List S3Object) (key : Path) (st₀ : RunState),
      Event.deleteCall key ∉ st₀.events →
      Event.deleteCall key ∈
        (processFileObjects env bucket download_dir delete_file st₀ objs).events →
      delete_file = true ∧ ∃ pre o post, objs = pre ++ o :: post ∧ o.key = key ∧
        ∃ fsx : FileSystem,
          ensure_directory env.renameFails
              (processFileObjects env bucket download_dir delete_file st₀ pre).fs
              (dirname (objectLocalPath download_dir bucket o)) = .ok fsx ∧
          (transferAttempt env bucket download_dir fsx o).success = true ∧
          pathExists (applyTransfer fsx (objectLocalPath download_dir bucket o)
              (transferAttempt env bucket download_dir fsx o))
            (objectLocalPath download_dir bucket o) = true ∧
          o.size ≤ getSize (applyTransfer fsx (objectLocalPath download_dir bucket o)
              (transferAttempt env bucket download_dir fsx o))
            (objectLocalPath download_dir bucket o)) ∧
    (∀ (objs : List S3Object) (key : Path) (st₀ : RunState),
      Event.deleteCall key ∉ st₀.events →
      (∀ pre o post, objs = pre ++ o :: post → o.key = key →
        ∀ fsx : FileSystem,
          ensure_directory env.renameFails
              (processFileObjects env bucket download_dir delete_file st₀ pre).fs
              (dirname (objectLocalPath download_dir bucket o)) = .ok fsx →
          (transferAttempt env bucket download_dir fsx o).success = false) →
      Event.deleteCall key ∉
        (processFileObjects env bucket download_dir delete_file st₀ objs).events) := by
  have hsound : ∀ (objs : List S3Object) (key : Path) (st₀ : RunState),
      Event.deleteCall key ∉ st₀.events →
      Event.deleteCall key ∈
        (processFileObjects env bucket download_dir delete_file st₀ objs).events →
      delete_file = true ∧ ∃ pre o post, objs = pre ++ o :: post ∧ o.key = key ∧
        ∃ fsx : FileSystem,
          ensure_directory env.renameFails
              (processFileObjects env bucket download_dir delete_file st₀ pre).fs
              (dirname (objectLocalPath download_dir bucket o)) = .ok fsx ∧
          (transferAttempt env bucket download_dir fsx o).success = true ∧
          pathExists (applyTransfer fsx (objectLocalPath download_dir bucket o)
              (transferAttempt env bucket download_dir fsx o))
            (objectLocalPath download_dir bucket o) = true ∧
          o.size ≤ getSize (applyTransfer fsx (objectLocalPath download_dir bucket o)
              (transferAttempt env bucket download_dir fsx o))
            (objectLocalPath download_dir bucket o) := by
    intro objs key st₀ h₀ hmem
    rcases processFileObjects_delete_split env bucket download_dir delete_file key
        objs st₀ hmem with hl | hr
    · exact absurd hl h₀
    · exact hr
  have hnever : ∀ (objs : List S3Object) (key : Path) (st₀ : RunState),
      Event.deleteCall key ∉ st₀.events →
      (∀ pre o post, objs = pre ++ o :: post → o.key = key →
        ∀ fsx : FileSystem,
          ensure_directory env.renameFails
              (processFileObjects env bucket download_dir delete_file st₀ pre).fs
              (dirname (objectLocalPath download_dir bucket o)) = .ok fsx →
          (transferAttempt env bucket download_dir fsx o).success = false) →
      Event.deleteCall key ∉
        (processFileObjects env bucket download_dir delete_file st₀ objs).events := by
    intro objs key st₀ h₀ hfail hmem
    rcases hsound objs key st₀ h₀ hmem with
      ⟨_, pre, o, post, hsplit, hkey, fsx, hE, hsucc, _, _⟩
    rw [hfail pre o post hsplit hkey fsx hE] at hsucc
    exact Bool.noConfusion hsucc
  rw [processFileObject_eq env bucket download_dir delete_file st obj fs1 hens]
  by_cases hg : (transferAttempt env bucket download_dir fs1 obj).success = true ∧
      pathExists (applyTransfer fs1 (objectLocalPath download_dir bucket obj)
          (transferAttempt env bucket download_dir fs1 obj))
        (objectLocalPath download_dir bucket obj) = true ∧
      obj.size ≤ getSize (applyTransfer fs1 (objectLocalPath download_dir bucket obj)
          (transferAttempt env bucket download_dir fs1 obj))
        (objectLocalPath download_dir bucket obj)
  · rw [if_pos hg]
    refine ⟨?_, fun _ => rfl, fun hng => absurd hg hng, hsound, hnever⟩
    rw [mem_delete_s3_object]
    constructor
    · rintro (hmem | ⟨hdf, _⟩)
      · rcases List.mem_append.mp hmem with hl | hr
        · exact absurd hl hnew
        · exact absurd hr (deleteCall_not_mem_range_map obj.key obj.key _)
      · exact ⟨hdf, hg⟩
    · rintro ⟨hdf, _⟩
      exact Or.inr ⟨hdf, rfl⟩
  · rw [if_neg hg]
    refine ⟨?_, fun hgg => absurd hgg hg, fun _ => ⟨rfl, ?_⟩, hsound, hnever⟩
    · constructor
      · intro hmem
        rcases List.mem_append.mp hmem with hl | hr
        · exact absurd hl hnew
        · exact absurd hr (deleteCall_not_mem_range_map obj.key obj.key _)
      · rintro ⟨_, hgg⟩
        exact absurd hgg hg
    · intro hmem
      rcases List.mem_append.mp hmem with hl | hr
      · exact absurd hl hnew
      · exact absurd hr (deleteCall_not_mem_range_map obj.key obj.key _)

/-- Witness for C2: a 1-byte object downloads fully and is deleted; and in
a run whose only object's fetch fails at its actual intermediate state,
that key is never deleted. -/
theorem claim_C2_witness :
    ensure_directory oneByteEnv.renameFails initialState.fs
        (dirname (objectLocalPath ['d'] ['b'] ⟨['k'], 1⟩)) = .ok parentFs ∧
      (Event.deleteCall ['k'] ∈
          (processFileObject oneByteEnv ['b'] ['d'] true initialState
            ⟨['k'], 1⟩).events ↔
        (true = true ∧
          (transferAttempt oneByteEnv ['b'] ['d'] parentFs ⟨['k'], 1⟩).success = true ∧
          pathExists (applyTransfer parentFs (objectLocalPath ['d'] ['b'] ⟨['k'], 1⟩)
              (transferAttempt oneByteEnv ['b'] ['d'] parentFs ⟨['k'], 1⟩))
            (objectLocalPath ['d'] ['b'] ⟨['k'], 1⟩) = true ∧
          (⟨['k'], 1⟩ : S3Object).size ≤
            getSize (applyTransfer parentFs (objectLocalPath ['d'] ['b'] ⟨['k'], 1⟩)
                (transferAttempt oneByteEnv ['b'] ['d'] parentFs ⟨['k'], 1⟩))
              (objectLocalPath ['d'] ['b'] ⟨['k'], 1⟩))) ∧
      Event.deleteCall ['k'] ∉
        (processFileObjects failingListEnv ['b'] ['d'] true initialState
          [⟨['k'], 1⟩]).events := by
  refine ⟨rfl,
    (claim_C2_deletion_gate oneByteEnv ['b'] ['d'] true initialState ⟨['k'], 1⟩
      parentFs rfl (by simp [initialState])).1, ?_⟩
  refine (claim_C2_deletion_gate failingListEnv ['b'] ['d'] true initialState
      ⟨['k'], 1⟩ parentFs rfl (by simp [initialState])).2.2.2.2 [⟨['k'], 1⟩] ['k']
    initialState (by simp [initialState]) ?_
  intro pre o post hsplit hkey fsx hensx
  cases pre with
  | nil =>
      rw [List.nil_append] at hsplit
      injection hsplit with h1 h2
      subst h1
      have hfs : ensure_directory failingListEnv.renameFails
          (processFileObjects failingListEnv ['b'] ['d'] true initialState []).fs
          (dirname (objectLocalPath ['d'] ['b'] ⟨['k'], 1⟩)) = .ok parentFs := rfl
      rw [hfs] at hensx
      injection hensx with hf
      subst hf
      decide
  | cons x pre' =>
      rw [List.cons_append] at hsplit
      injection hsplit with h1 h2
      cases pre' with
      | nil => exact List.noConfusion h2
      | cons y pre'' => exact List.noConfusion h2

/-! ### Claim C10: zero-size edge case -/

theorem ensure_directory_none (renameFails : Path → Bool) (fs : FileSystem)
    (path : Path) (h : fs path = none) :
    ensure_directory renameFails fs path = .ok (updateFs fs path .dir) := by
  simp [ensure_directory, h]

theorem ensure_directory_isdir (renameFails : Path → Bool) (fs : FileSystem)
    (path : Path) (h : fs path = some .dir) :
    ensure_directory renameFails fs path = .ok fs := by
  simp [ensure_directory, h]

theorem ensure_directory_file_ok (renameFails : Path → Bool) (fs : FileSystem)
    (path : Path) (c : List Byte) (h : fs path = some (.file c))
    (hrf : renameFails path = false) :
    ensure_directory renameFails fs path =
      .ok (updateFs (removeFs (updateFs fs (path ++ conflict_suffix) (.file c)) path)
        path .dir) := by
  simp [ensure_directory, h, hrf]

theorem ensure_directory_file_err (renameFails : Path → Bool) (fs : FileSystem)
    (path : Path) (c : List Byte) (h : fs path = some (.file c))
    (hrf : renameFails path = true) :
    ensure_directory renameFails fs path = .error () := by
  simp [ensure_directory, h, hrf]

theorem ensure_directory_preserves (renameFails : Path → Bool) (fs : FileSystem)
    (path q : Path) (fs' : FileSystem)
    (hok : ensure_directory renameFails fs path = .ok fs')
    (h1 : q ≠ path) (h2 : q ≠ path ++ conflict_suffix) :
    fs' q = fs q := by
  cases hfs : fs path with
  | none =>
      rw [ensure_directory_none renameFails fs path hfs] at hok
      injection hok with h
      rw [← h]
      simp [updateFs, h1]
  | some e =>
      cases e with
      | dir =>
          rw [ensure_directory_isdir renameFails fs path hfs] at hok
          injection hok with h
          rw [← h]
      | file c =>
          by_cases hrf : renameFails path = true
          · rw [ensure_directory_file_err renameFails fs path c hfs hrf] at hok
            exact Except.noConfusion hok
          · have hrf' : renameFails path = false := by
              revert hrf; cases renameFails path <;> simp
            rw [ensure_directory_file_ok renameFails fs path c hfs hrf'] at hok
            injection hok with h
            rw [← h]
            simp [updateFs, removeFs, h1, h2]

/-- Claim C10: A zero-size remote object with no local file: the transfer
short-circuits to `(True, 0)` without any range request and without
creating a file; the orchestrator's post-check then fails because the
local path does not exist, so the object is never counted and its remote
copy is never deleted, and the state is left exactly as before, so the
same holds on every later run. -/
theorem claim_C10_zero_size_edge (env : Env) (bucket download_dir : Path)
    (delete_file : Bool) (st : RunState) (obj : S3Object)
    (hsize : obj.size = 0)
    (habsent : st.fs (objectLocalPath download_dir bucket obj) = none)
    (hne1 : objectLocalPath download_dir bucket obj ≠
      dirname (objectLocalPath download_dir bucket obj))
    (hne2 : objectLocalPath download_dir bucket obj ≠
      dirname (objectLocalPath download_dir bucket obj) ++ conflict_suffix) :
    (∀ fetch : Nat → Nat → FetchResult,
      download_file_resumable fetch none 0 = ⟨true, 0, none, []⟩) ∧
    (processFileObject env bucket download_dir delete_file st obj).events =
        st.events ∧
    (processFileObject env bucket download_dir delete_file st obj).downloaded_bytes =
        st.downloaded_bytes ∧
    (processFileObject env bucket download_dir delete_file st obj).fs
        (objectLocalPath download_dir bucket obj) = none := by
  have htr : ∀ fetch : Nat → Nat → FetchResult,
      download_file_resumable fetch none 0 = ⟨true, 0, none, []⟩ := by
    intro fetch
    unfold download_file_resumable
    rw [if_pos (by simp [localSize, localContent])]
  refine ⟨htr, ?_⟩
  cases hE : ensure_directory env.renameFails st.fs
      (dirname (objectLocalPath download_dir bucket obj)) with
  | error e =>
      rw [processFileObject_err env bucket download_dir delete_file st obj
        (by cases e; exact hE)]
      exact ⟨rfl, rfl, habsent⟩
  | ok fs1 =>
      have hpres : fs1 (objectLocalPath download_dir bucket obj) = none := by
        rw [ensure_directory_preserves env.renameFails st.fs _ _ fs1 hE hne1 hne2]
        exact habsent
      have hta : transferAttempt env bucket download_dir fs1 obj =
          ⟨true, 0, none, []⟩ := by
        unfold transferAttempt
        have hloc : localFileAt fs1 (objectLocalPath download_dir bucket obj) = none := by
          unfold localFileAt
          rw [hpres]
        rw [hloc, hsize]
        exact htr _
      have happ : applyTransfer fs1 (objectLocalPath download_dir bucket obj)
          (transferAttempt env bucket download_dir fs1 obj) = fs1 := by
        rw [hta]
        rfl
      rw [processFileObject_eq env bucket download_dir delete_file st obj fs1 hE]
      rw [if_neg (by
        rw [happ]
        intro hgate
        have := hgate.2.1
        rw [pathExists, hpres] at this
        exact Bool.noConfusion this)]
      refine ⟨?_, rfl, ?_⟩
      · rw [hta]
        simp
      · show applyTransfer fs1 (objectLocalPath download_dir bucket obj)
            (transferAttempt env bucket download_dir fs1 obj)
            (objectLocalPath download_dir bucket obj) = none
        rw [happ]
        exact hpres

/-- Witness for C10: a zero-size object `'z'` leaves the run state
untouched. -/
theorem claim_C10_witness :
    (⟨['z'], 0⟩ : S3Object).size = 0 ∧
      initialState.fs (objectLocalPath ['d'] ['b'] ⟨['z'], 0⟩) = none ∧
      (processFileObject oneByteEnv ['b'] ['d'] true initialState ⟨['z'], 0⟩).events =
        initialState.events ∧
      (processFileObject oneByteEnv ['b'] ['d'] true initialState
        ⟨['z'], 0⟩).downloaded_bytes = initialState.downloaded_bytes :=
  ⟨rfl, rfl,
    (claim_C10_zero_size_edge oneByteEnv ['b'] ['d'] true initialState ⟨['z'], 0⟩
      rfl rfl (by decide) (by decide)).2.1,
    (claim_C10_zero_size_edge oneByteEnv ['b'] ['d'] true initialState ⟨['z'], 0⟩
      rfl rfl (by decide) (by decide)).2.2.1⟩

/-! ### Claim C9: listing-failure containment -/

/-- Counterexample to C9 as stated: the paginator of `list_bucket_objects`
raises a `ClientError` after one page (so the full object listing could
not be obtained), yet the objects of the retrieved page ARE processed —
the run issues a range request for object `'k'` and deletes it. -/
theorem claim_C9_counterexample :
    (oneByteEnv.listObjects ['b']).2 = true ∧
      (download_bucket_objects oneByteEnv ['b'] ['d'] true initialState).events =
        [Event.rangeRequest ['k'] 0 0, Event.deleteCall ['k']] := by
  constructor
  · rfl
  · decide

/-- Claim C9, amended: If the object listing fails before any page is
retrieved, the bucket contributes nothing — no transfer, no deletion, no
filesystem change; and if the bucket listing itself fails, the whole fleet
run is aborted with the state untouched. -/
theorem claim_C9_listing_failure (env : Env) (bucket download_dir : Path)
    (delete_file : Bool) (st : RunState) (pats : IgnorePatterns)
    (hobj : env.listObjects bucket = ([], true))
    (hbuck : env.listBuckets = none) :
    download_bucket_objects env bucket download_dir delete_file st =
        ⟨st.fs, 0, st.events⟩ ∧
      list_and_download_all_buckets env download_dir pats delete_file st = st := by
  constructor
  · unfold download_bucket_objects
    rw [hobj]
    rfl
  · unfold list_and_download_all_buckets
    rw [hbuck]

/-- Witness for the amended C9 at a concrete input. -/
theorem claim_C9_witness :
    failingListEnv.listObjects ['b'] = ([], true) ∧
      failingListEnv.listBuckets = none ∧
      download_bucket_objects failingListEnv ['b'] ['d'] true initialState =
        ⟨initialState.fs, 0, initialState.events⟩ ∧
      list_and_download_all_buckets failingListEnv ['d'] ⟨[], [], []⟩ true
        initialState = initialState :=
  ⟨rfl, rfl,
    (claim_C9_listing_failure failingListEnv ['b'] ['d'] true initialState
      ⟨[], [], []⟩ rfl rfl).1,
    (claim_C9_listing_failure failingListEnv ['b'] ['d'] true initialState
      ⟨[], [], []⟩ rfl rfl).2⟩

end S3Download
